import Mathlib

/-!
Verification of the detection-and-deduplication pipeline of the tg_parcer
repository, a shallow embedding of the Python sources into Lean 4.

Strings are modelled as `List Char` (one element per Unicode code point,
matching Python string indexing and `len`).  Python `str.lower` is modelled
on the ASCII and Cyrillic ranges, which are exactly the ranges the embedded
functions match on; other code points are left unchanged.
-/

abbrev Str := List Char

/-- Code points of a string literal, the `List Char` view of a Python str. -/
def strOf (s : String) : Str := s.data

/-- Python str.lower restricted to ASCII A-Z, Cyrillic А-Я and Ё; every other
code point is left unchanged. -/
def lowChar (c : Char) : Char :=
  if 65 ≤ c.toNat ∧ c.toNat ≤ 90 then Char.ofNat (c.toNat + 32)
  else if c.toNat = 1025 then Char.ofNat 1105
  else if 1040 ≤ c.toNat ∧ c.toNat ≤ 1071 then Char.ofNat (c.toNat + 32)
  else c

/-- Model of Python str.lower (see lowChar). -/
def lower (l : Str) : Str := l.map lowChar

/-- The ASCII whitespace characters stripped by Python str.strip and matched
by the regex class backslash-s (space, tab, newline, carriage return,
vertical tab, form feed). -/
def pyWs (c : Char) : Bool :=
  c = ' ' || c = '\t' || c = '\n' || c = '\r' || c.toNat = 11 || c.toNat = 12

/-- Python str.strip: remove leading and trailing whitespace. -/
def pyStrip (l : Str) : Str :=
  ((l.dropWhile pyWs).reverse.dropWhile pyWs).reverse

/-- Python str.split with no argument: split on whitespace runs, dropping
empty pieces.  `acc` holds the current word reversed. -/
def splitWsAux : Str → Str → List Str
  | [], [] => []
  | [], acc => [acc.reverse]
  | c :: cs, acc =>
    if pyWs c then
      match acc with
      | [] => splitWsAux cs []
      | _ => acc.reverse :: splitWsAux cs []
    else splitWsAux cs (c :: acc)

def splitWs (l : Str) : List Str := splitWsAux l []

/-- A well-formed word of a whitespace split: nonempty and without whitespace. -/
def wfPart (p : Str) : Bool := !p.isEmpty && p.all (fun c => !pyWs c)

def wfParts (ps : List Str) : Bool := ps.all wfPart


/-- Python " ".join. -/
def joinSpace : List Str → Str
  | [] => []
  | [p] => p
  | p :: ps => p ++ ' ' :: joinSpace ps

/-- Python " ".join(s.split()): collapse internal whitespace. -/
def collapseWs (l : Str) : Str := joinSpace (splitWs l)

/-- The character class kept by venue_enricher._CLEAN_RE, the complement of
[^a-zA-Zа-яА-ЯёЁ0-9 ]. -/
def allowedChar (c : Char) : Bool :=
  (97 ≤ c.toNat && c.toNat ≤ 122) || (65 ≤ c.toNat && c.toNat ≤ 90)
  || (1072 ≤ c.toNat && c.toNat ≤ 1103) || (1040 ≤ c.toNat && c.toNat ≤ 1071)
  || c.toNat = 1105 || c.toNat = 1025
  || (48 ≤ c.toNat && c.toNat ≤ 57) || c = ' '

/-- _CLEAN_RE.sub("", name): drop every character outside the class. -/
def cleanName (l : Str) : Str := l.filter allowedChar

/-- venue_enricher._LOCATION_SUFFIXES, in source order. -/
def LOCATION_SUFFIXES : List Str :=
  [strOf ", koh phangan", strOf ", ko phangan", strOf ", ko pha-ngan",
   strOf ", ко-панган", strOf ", ко панган", strOf ", панган",
   strOf ", phangan", strOf ", phangan island",
   strOf ", haad rin", strOf ", haad yao", strOf ", haad salad",
   strOf ", thong sala", strOf ", ban tai", strOf ", chaloklum",
   strOf ", chaweng", strOf ", samui", strOf ", maduea wan",
   strOf " koh phangan", strOf " ko phangan",
   strOf " (koh phangan)", strOf " (ko phangan)",
   strOf " (phangan)"]

/-- The suffix-stripping loop of _normalize_venue_name: the first suffix (in
list order) that the name ends with is removed, then the name is stripped
again; at most one suffix is removed per call (the loop breaks). -/
def stripLocSuffix (l : Str) : Str :=
  match LOCATION_SUFFIXES.find? (fun suf => List.isSuffixOf suf l) with
  | some suf => pyStrip (l.take (l.length - suf.length))
  | none => l

/-- venue_enricher.VENUE_ALIASES, in source order. -/
def VENUE_ALIASES : List (Str × Str) :=
  [(strOf "aum", strOf "aum sound healing center"),
   (strOf "aum center", strOf "aum sound healing center"),
   (strOf "aum soundhealing center", strOf "aum sound healing center"),
   (strOf "aum soundhealing", strOf "aum sound healing center"),
   (strOf "aum phangan", strOf "aum sound healing center"),
   (strOf "aum sound center", strOf "aum sound healing center"),
   (strOf "kefir", strOf "kefir family restaurant"),
   (strOf "kefir restaurant", strOf "kefir family restaurant"),
   (strOf "sunset hill", strOf "sunset hill resort"),
   (strOf "sunset hill restaurant", strOf "sunset hill resort"),
   (strOf "nashe mesto", strOf "mesto"),
   (strOf "mesto phangan", strOf "mesto"),
   (strOf "mesto копанган", strOf "mesto"),
   (strOf "plunktone restaurant", strOf "planktone restaurant lounge"),
   (strOf "planktone restaurant  lounge", strOf "planktone restaurant lounge"),
   (strOf "planktone restaurant lounge chaweng", strOf "planktone restaurant lounge"),
   (strOf "sati yoga koh phangan", strOf "sati yoga"),
   (strOf "shivari amphitheater", strOf "shivari"),
   (strOf "shivari center", strOf "shivari"),
   (strOf "shivari koh phangan", strOf "shivari"),
   (strOf "lost paradise koh phangan", strOf "lost paradise"),
   (strOf "indriya retreat center koh phangan", strOf "indriya retreat"),
   (strOf "unclave koh phangan", strOf "unclave"),
   (strOf "the wave koh phangan", strOf "the wave"),
   (strOf "stay gold cafe  bar", strOf "stay gold"),
   (strOf "stay gold ko phangan", strOf "stay gold"),
   (strOf "soul terra phangan", strOf "soulterra phangan"),
   (strOf "soulterra phangan", strOf "soulterra phangan"),
   (strOf "catch phangan", strOf "catch"),
   (strOf "7eleven haad rin", strOf "7eleven"),
   (strOf "711", strOf "7eleven"),
   (strOf "711 meeting point", strOf "7eleven")]

/-- VENUE_ALIASES.get(name, name). -/
def aliasLookup (l : Str) : Str :=
  match VENUE_ALIASES.find? (fun p => p.1 == l) with
  | some p => p.2
  | none => l

/-- The steps of _normalize_venue_name before the alias table: lowercase and
strip, remove one location suffix, drop punctuation, collapse whitespace. -/
def normCore (name : Str) : Str :=
  collapseWs (cleanName (stripLocSuffix (pyStrip (lower name))))

/-- venue_enricher._normalize_venue_name: lowercase and strip, remove one
location suffix, drop punctuation, collapse whitespace, apply the alias
table. -/
def normalize_venue_name (name : Str) : Str :=
  aliasLookup (normCore name)

-- ── JSON values and Python dict operations (ai_analyzer) ──

/-- A parsed JSON value, the result of json.loads.  Numbers are modelled as
integers (the embedded code only ever distinguishes them by truthiness,
equality to strings, and int() coercion). -/
inductive JVal where
  | jnull
  | jbool (b : Bool)
  | jnum (n : Int)
  | jstr (s : Str)
  | jarr (elems : List JVal)
  | jobj (fields : List (Str × JVal))

/-- Python dict membership (dicts are modelled as association lists with
unique keys kept in insertion order). -/
def hasKey (fields : List (Str × JVal)) (k : Str) : Bool :=
  (fields.find? (fun p => p.1 == k)).isSome

/-- dict.get(k) returning None as absence. -/
def getField (fields : List (Str × JVal)) (k : Str) : Option JVal :=
  (fields.find? (fun p => p.1 == k)).map Prod.snd

/-- dict.get(k, d). -/
def getFieldD (fields : List (Str × JVal)) (k : Str) (d : JVal) : JVal :=
  (getField fields k).getD d

/-- dict[k] = v: replace in place when the key exists, append otherwise. -/
def setField : List (Str × JVal) → Str → JVal → List (Str × JVal)
  | [], k, v => [(k, v)]
  | (k0, v0) :: rest, k, v =>
    if k0 == k then (k0, v) :: rest else (k0, v0) :: setField rest k v

/-- dict.setdefault(k, v). -/
def setdefaultField (fields : List (Str × JVal)) (k : Str) (v : JVal) :
    List (Str × JVal) :=
  if hasKey fields k then fields else setField fields k v

/-- Python truthiness of a JSON value. -/
def pyTruthy : JVal → Bool
  | .jnull => false
  | .jbool b => b
  | .jnum n => !(n == 0)
  | .jstr s => !s.isEmpty
  | .jarr l => !l.isEmpty
  | .jobj f => !f.isEmpty

def digitVal (c : Char) : Option Nat :=
  if 48 ≤ c.toNat ∧ c.toNat ≤ 57 then some (c.toNat - 48) else none

/-- The digits of a nonempty all-digit string, as a number. -/
def digitsToNat (l : Str) : Option Nat :=
  if l.isEmpty then none
  else l.foldl (fun acc c =>
    match acc, digitVal c with
    | some a, some d => some (a * 10 + d)
    | _, _ => none) (some 0)

/-- Python int(str): strip whitespace, optional sign, decimal digits;
None models the ValueError raised on anything else. -/
def pyIntOfStr (s : Str) : Option Int :=
  match pyStrip s with
  | '+' :: rest => (digitsToNat rest).map (fun n => (n : Int))
  | '-' :: rest => (digitsToNat rest).map (fun n => -(n : Int))
  | t => (digitsToNat t).map (fun n => (n : Int))

/-- Python int(x) on a JSON value: int and bool coerce, numeric strings
parse, everything else raises (None models ValueError/TypeError). -/
def pyInt : JVal → Option Int
  | .jbool b => some (if b then 1 else 0)
  | .jnum n => some n
  | .jstr s => pyIntOfStr s
  | _ => none

-- ── EventAnalyzer._validate_result (ai_analyzer.py) ──

def kIsEvent : Str := strOf "is_event"
def kTitle : Str := strOf "title"
def kCategory : Str := strOf "category"
def kSummary : Str := strOf "summary"
def kPrice : Str := strOf "price_thb"
def kDate : Str := strOf "date"
def kTime : Str := strOf "time"
def kLocationName : Str := strOf "location_name"
def kDescription : Str := strOf "description"

/-- The fixed category enum of ai_analyzer. -/
def VALID_CATEGORIES : List Str :=
  [strOf "Party", strOf "Sport", strOf "Business", strOf "Education", strOf "Chill"]

/-- result.get("category") in valid_categories: only a string equal to one of
the five enum values passes. -/
def categoryValid : Option JVal → Bool
  | some (.jstr s) => VALID_CATEGORIES.any (fun c => c == s)
  | _ => false

/-- First step of _validate_result: a list is replaced by its first element,
an empty list by an empty dict. -/
def unlist : JVal → JVal
  | .jarr [] => .jobj []
  | .jarr (x :: _) => x
  | v => v

/-- One step of the required-field loop: fill the key with "N/A" when
missing. -/
def fillKey (fields : List (Str × JVal)) (k : Str) : List (Str × JVal) :=
  if hasKey fields k then fields else setField fields k (.jstr (strOf "N/A"))

/-- The required-field loop of _validate_result over title, category,
summary, in source order. -/
def fillRequired (fields : List (Str × JVal)) : List (Str × JVal) :=
  fillKey (fillKey (fillKey fields kTitle) kCategory) kSummary

/-- The category validation step: an unrecognized category is replaced by the
default "Chill". -/
def afterCategory (f1 : List (Str × JVal)) : List (Str × JVal) :=
  if categoryValid (getField f1 kCategory) then f1
  else setField f1 kCategory (.jstr (strOf "Chill"))

/-- The price coercion step: int(result.get("price_thb", 0)), with 0 on
ValueError/TypeError. -/
def afterPrice (f2 : List (Str × JVal)) : List (Str × JVal) :=
  setField f2 kPrice (.jnum ((pyInt (getFieldD f2 kPrice (.jnum 0))).getD 0))

/-- The four setdefault statements at the end of _validate_result. -/
def afterDefaults (f3 : List (Str × JVal)) : List (Str × JVal) :=
  setdefaultField
    (setdefaultField
      (setdefaultField
        (setdefaultField f3 kDate (.jstr (strOf "TBD")))
        kTime (.jstr (strOf "TBD")))
      kLocationName (.jstr (strOf "TBD")))
    kDescription (.jstr (strOf ""))

/-- The body of _validate_result on a dict. -/
def validateDict (fields : List (Str × JVal)) : JVal :=
  if !(pyTruthy (getFieldD fields kIsEvent .jnull)) then .jobj [(kIsEvent, .jbool false)]
  else .jobj (afterDefaults (afterPrice (afterCategory (fillRequired fields))))

/-- _validate_result after the list unwrap: a non-dict becomes the bare
non-event dict. -/
def validateTop : JVal → JVal
  | .jobj fields => validateDict fields
  | _ => .jobj [(kIsEvent, .jbool false)]

/-- EventAnalyzer._validate_result. -/
def validate_result (result : JVal) : JVal :=
  validateTop (unlist result)

/-- Field lookup on the (always dict-shaped) output of _validate_result. -/
def outField (v : JVal) (k : Str) : Option JVal :=
  match v with
  | .jobj fields => getField fields k
  | _ => none

-- ── EventAnalyzer.extract (ai_analyzer.py) ──

/-- The primary extraction model of EventAnalyzer. -/
def primary_model : Str := strOf "gemini-2.5-flash"

/-- The designated cheaper fallback model of EventAnalyzer. -/
def fallback_model : Str := strOf "gemini-2.5-flash-lite"

/-- The outcome of one generate_content call inside extract, as the except
clauses of the source classify it: a successfully parsed JSON value, a
json.JSONDecodeError, a transient server error (503/504/UNAVAILABLE/DEADLINE
or a timeout signature in the message), or any other exception. -/
inductive CallOutcome where
  | ok (raw : JVal)
  | jsonErr
  | serverErr
  | otherErr

/-- Result of the two-attempt loop for one model: either the call finishes
(with a validated result or None), or — only on the primary model — the
second transient failure appends the fallback model and breaks. -/
inductive PhaseRes where
  | finished (r : Option JVal)
  | toFallback

/-- The inner attempt loop of extract for one model: attempt 0, then (after a
retry delay) attempt 1.  Returns how many calls were made, how much the
errors counter grew, and how the loop ended.  `isPrimary` tells whether the
fallback switch is still available (model == self.model and the fallback not
yet queued). -/
def runPhase (isPrimary : Bool) (s1 s2 : CallOutcome) : Nat × Nat × PhaseRes :=
  match s1 with
  | .ok r => (1, 0, .finished (some (validate_result r)))
  | .otherErr => (1, 1, .finished none)
  | .jsonErr =>
    match s2 with
    | .ok r => (2, 0, .finished (some (validate_result r)))
    | .jsonErr => (2, 1, .finished none)
    | .serverErr => if isPrimary then (2, 0, .toFallback) else (2, 1, .finished none)
    | .otherErr => (2, 1, .finished none)
  | .serverErr =>
    match s2 with
    | .ok r => (2, 0, .finished (some (validate_result r)))
    | .jsonErr => (2, 1, .finished none)
    | .serverErr => if isPrimary then (2, 0, .toFallback) else (2, 1, .finished none)
    | .otherErr => (2, 1, .finished none)

/-- Observable trace of one extract call: its return value, the sequence of
models called (one entry per generate_content call), and the final increments
of the fallbacks and errors counters. -/
structure ExtractTrace where
  result : Option JVal
  calls : List Str
  fallbacks : Nat
  errors : Nat

/-- EventAnalyzer.extract over a script assigning an outcome to each
successive AI call: the primary model gets two attempts; on a second
transient failure the fallback model is appended to models_to_try (and the
fallbacks counter incremented) and gets its own two attempts; any other
exhaustion returns None.  The second component of runPhase for the fallback
phase can never be toFallback (isPrimary is false), so the last branch is
dead code. -/
def extract_run (script : Nat → CallOutcome) : ExtractTrace :=
  match runPhase true (script 0) (script 1) with
  | (n, e, .finished r) => ⟨r, List.replicate n primary_model, 0, e⟩
  | (n, _, .toFallback) =>
    match runPhase false (script n) (script (n + 1)) with
    | (m, e2, .finished r) =>
      ⟨r, List.replicate n primary_model ++ List.replicate m fallback_model, 1, e2⟩
    | (_, e2, .toFallback) => ⟨none, [], 1, e2⟩

/-- Concrete script for the C2 witness: two transient primary failures, then
successes. -/
def c2Script : Nat → CallOutcome := fun n =>
  match n with
  | 0 => .serverErr
  | 1 => .serverErr
  | _ => .ok (.jobj [])


-- ── EventAnalyzer.pre_screen (ai_analyzer.py) ──

/-- Outcome of the single AI call inside pre_screen: a successfully parsed
JSON value, or any exception inside the try block (API error, timeout,
json.JSONDecodeError, quota). -/
inductive ScreenOutcome where
  | ok (parsed : JVal)
  | err

/-- EventAnalyzer.pre_screen: texts that are empty or shorter than 30
characters after strip return False before any AI call; otherwise one AI
call is made; on success the raw value of result.get("is_event", False) is
returned as-is (the source has `return is_event` with no bool coercion); a
non-dict parse or any exception returns True (fail-open).  The second
component counts AI calls. -/
def pre_screen (text : Str) (outcome : ScreenOutcome) : JVal × Nat :=
  if text.isEmpty || decide ((pyStrip text).length < 30) then (.jbool false, 0)
  else
    match outcome with
    | .ok (.jobj fields) => (getFieldD fields kIsEvent (.jbool false), 1)
    | .ok _ => (.jbool true, 1)
    | .err => (.jbool true, 1)

-- ── Database._fingerprint (db.py) ──

/-- The character class kept by the _norm helper inside Database._fingerprint,
the complement of [^a-zа-яёа-я0-9 ]: lowercase Latin, lowercase Cyrillic, ё,
digits and space. -/
def fpAllowed (c : Char) : Bool :=
  (97 ≤ c.toNat && c.toNat ≤ 122) || (1072 ≤ c.toNat && c.toNat ≤ 1103)
  || c.toNat = 1105 || (48 ≤ c.toNat && c.toNat ≤ 57) || c = ' '

/-- The _norm helper of Database._fingerprint: lowercase, strip, drop
punctuation, collapse whitespace. -/
def fpNorm (s : Str) : Str :=
  collapseWs ((pyStrip (lower s)).filter fpAllowed)

/-- Python `x or default` on an optional string: None and the empty string
both fall back to the default. -/
def pyOrDefault (o : Option Str) (d : Str) : Str :=
  match o with
  | some s => if s.isEmpty then d else s
  | none => d

/-- Database._fingerprint: md5 of normalized-title ++ "|" ++ (date or "TBD").
The md5 digest itself is an external deterministic hash; the definition is
parameterized over it, and the location argument is accepted but unused,
exactly as in the source. -/
def fingerprint (md5 : Str → Str) (title : Str) (event_date : Option Str)
    (location : Option Str) : Str :=
  md5 (fpNorm title ++ strOf "|" ++ pyOrDefault event_date (strOf "TBD"))

-- ── EventDedup (listener.py) ──

/-- An event candidate as consumed by EventDedup: the dict fields the class
reads.  title and location_name fold in the get-default "" of the source;
date is None-able (an absent key and a null date behave identically in every
read the class performs, so both are modelled as none). -/
structure DedupEvent where
  title : Str
  date : Option Str
  location_name : Str

/-- EventDedup._normalize: (text or "").lower().strip(). -/
def dedupNormalize (text : Str) : Str := pyStrip (lower text)

/-- The word characters of listener._TOKEN_RE: [a-zA-Zа-яА-ЯёЁ0-9]. -/
def dedupWordChar (c : Char) : Bool :=
  (97 ≤ c.toNat && c.toNat ≤ 122) || (65 ≤ c.toNat && c.toNat ≤ 90)
  || (1072 ≤ c.toNat && c.toNat ≤ 1103) || (1040 ≤ c.toNat && c.toNat ≤ 1071)
  || c.toNat = 1105 || c.toNat = 1025 || (48 ≤ c.toNat && c.toNat ≤ 57)

/-- _TOKEN_RE.findall: maximal runs of word characters. -/
def tokenRunsAux : Str → Str → List Str
  | [], [] => []
  | [], acc => [acc.reverse]
  | c :: cs, acc =>
    if dedupWordChar c then tokenRunsAux cs (c :: acc)
    else
      match acc with
      | [] => tokenRunsAux cs []
      | _ => acc.reverse :: tokenRunsAux cs []

def tokenRuns (l : Str) : List Str := tokenRunsAux l []

/-- EventDedup._tokenize: tokens of the lowercased title, keeping those of
length > 1, stemmed to their first 5 characters, as a set. -/
def dedupTokenize (title : Str) : Finset Str :=
  (((tokenRuns (lower title)).filter (fun t => decide (1 < t.length))).map
    (fun t => t.take 5)).toFinset

/-- EventDedup._jaccard compared with the 0.6 threshold: empty sets give
similarity 0; otherwise |a ∩ b| / |a ∪ b| ≥ 3/5, as an exact rational
comparison (the source compares IEEE doubles; 3/5 and the literal 0.6 round
to the same double, so the comparison agrees at the threshold). -/
def jaccardGe (a b : Finset Str) : Bool :=
  if a = ∅ ∨ b = ∅ then false
  else decide (6 * (a ∪ b).card ≤ 10 * (a ∩ b).card)

/-- EventDedup._exact_key: normalized title | date-or-empty | normalized
location. -/
def exact_key (ev : DedupEvent) : Str :=
  dedupNormalize ev.title ++ '|' :: (ev.date.getD [] ++ '|' :: dedupNormalize ev.location_name)

/-- EventDedup._dates_compatible. -/
def dates_compatible (d1 d2 : Str) : Bool :=
  d1 == strOf "TBD" || d2 == strOf "TBD" || d1.isEmpty || d2.isEmpty || d1 == d2

/-- The mutable state of EventDedup: the exact-key set and the fuzzy history
(title, date, tokens). -/
structure DedupState where
  exact : Finset Str
  events : List (Str × Str × Finset Str)

/-- EventDedup.is_duplicate: layer 1 checks the exact key and registers it
immediately when absent; layer 2 scans the history for a date-compatible
entry with Jaccard similarity at or above the threshold; a candidate that is
no duplicate is appended to the history. -/
def is_duplicate (st : DedupState) (ev : DedupEvent) : Bool × DedupState :=
  if exact_key ev ∈ st.exact then (true, st)
  else
    let st1 : DedupState := ⟨insert (exact_key ev) st.exact, st.events⟩
    let tokens := dedupTokenize ev.title
    let date := ev.date.getD []
    if st1.events.any (fun stored =>
        dates_compatible date stored.2.1 && jaccardGe tokens stored.2.2) then
      (true, st1)
    else
      (false, ⟨st1.exact, st1.events ++ [(ev.title, date, tokens)]⟩)

-- ── VenueCache and VenueEnricher.enrich (venue_enricher.py) ──

/-- A venue record: the dict stored in the venue cache. -/
abbrev VenueRec := List (Str × JVal)

def kFound : Str := strOf "found"
def kName : Str := strOf "name"
def kLat : Str := strOf "lat"
def kLng : Str := strOf "lng"
def kMapsUrl : Str := strOf "google_maps_url"
def kAddress : Str := strOf "address"

/-- The in-memory tier of VenueCache: normalized query → record. -/
abbrev VenueMem := List (Str × VenueRec)

def memGet (mem : VenueMem) (key : Str) : Option VenueRec :=
  (mem.find? (fun p => p.1 == key)).map Prod.snd

/-- Dict assignment on the memory tier. -/
def memPut : VenueMem → Str → VenueRec → VenueMem
  | [], k, v => [(k, v)]
  | (k0, v0) :: rest, k, v =>
    if k0 == k then (k0, v) :: rest else (k0, v0) :: memPut rest k v

/-- VenueCache.aget: memory tier first, then the durable store (an external
collaborator modelled as a read map applied to the raw query, as in the
source), warming the memory tier on a durable hit.  Returns the record and
the updated memory tier. -/
def aget (mem : VenueMem) (pg : Str → Option VenueRec) (venue_name : Str) :
    Option VenueRec × VenueMem :=
  let key := normalize_venue_name venue_name
  match memGet mem key with
  | some cached => (some cached, mem)
  | none =>
    match pg venue_name with
    | some row => (some row, memPut mem key row)
    | none => (none, mem)

/-- VenueCache.aput, memory tier: store under the normalized key (the
bookkeeping _cached_at/_original_query entries and the durable write are
external effects not read by any embedded code path). -/
def aput (mem : VenueMem) (venue_name : Str) (data : VenueRec) : VenueMem :=
  memPut mem (normalize_venue_name venue_name) data

/-- venue_enricher.CYRILLIC_TO_LATIN. -/
def CYRILLIC_TO_LATIN : List (Char × Str) :=
  [('а', strOf "a"), ('б', strOf "b"), ('в', strOf "v"), ('г', strOf "g"),
   ('д', strOf "d"), ('е', strOf "e"), ('ё', strOf "yo"), ('ж', strOf "zh"),
   ('з', strOf "z"), ('и', strOf "i"), ('й', strOf "y"), ('к', strOf "k"),
   ('л', strOf "l"), ('м', strOf "m"), ('н', strOf "n"), ('о', strOf "o"),
   ('п', strOf "p"), ('р', strOf "r"), ('с', strOf "s"), ('т', strOf "t"),
   ('у', strOf "u"), ('ф', strOf "f"), ('х', strOf "h"), ('ц', strOf "ts"),
   ('ч', strOf "ch"), ('ш', strOf "sh"), ('щ', strOf "sch"), ('ъ', strOf ""),
   ('ы', strOf "y"), ('ь', strOf ""), ('э', strOf "e"), ('ю', strOf "yu"),
   ('я', strOf "ya")]

/-- ASCII uppercasing of the first letter, as str.capitalize acts on the
(all-ASCII) transliteration table entries. -/
def upChar (c : Char) : Char :=
  if 97 ≤ c.toNat ∧ c.toNat ≤ 122 then Char.ofNat (c.toNat - 32) else c

def capFirst : Str → Str
  | [] => []
  | c :: cs => upChar c :: cs

/-- char.isupper() on the Latin and Cyrillic ranges. -/
def pyIsUpper (c : Char) : Bool :=
  (65 ≤ c.toNat && c.toNat ≤ 90) || (1040 ≤ c.toNat && c.toNat ≤ 1071) || c.toNat = 1025

/-- venue_enricher.transliterate_ru. -/
def transliterate_ru (text : Str) : Str :=
  (text.map (fun ch =>
    match (CYRILLIC_TO_LATIN.find? (fun p => p.1 == lowChar ch)).map Prod.snd with
    | some repl => if pyIsUpper ch then capFirst repl else repl
    | none => [ch])).flatten

/-- Contiguous-substring test. -/
def containsSeq (pat : Str) : Str → Bool
  | [] => pat.isEmpty
  | c :: rest => List.isPrefixOf pat (c :: rest) || containsSeq pat rest

/-- re.search(r"phangan|панган", venue_name, IGNORECASE). -/
def hasPhanganHint (venue_name : Str) : Bool :=
  containsSeq (strOf "phangan") (lower venue_name)
  || containsSeq (strOf "панган") (lower venue_name)

/-- re.search(r"[А-Яа-яЁё]", venue_name). -/
def hasCyrillic (venue_name : Str) : Bool :=
  venue_name.any (fun c =>
    (1040 ≤ c.toNat && c.toNat ≤ 1103) || c.toNat = 1025 || c.toNat = 1105)

/-- The (search-string, model) execution pipeline built by enrich on a cache
miss, in source order: the raw name on the primary model, a geographic hint
unless already present, a transliterated hint for Cyrillic names, and the
raw name on the fallback model. -/
def attempts_to_make (venue_name : Str) : List (Str × Str) :=
  (([(venue_name, primary_model)]
    ++ (if !hasPhanganHint venue_name then
          [(venue_name ++ strOf " Koh Phangan", primary_model)]
        else []))
    ++ (if hasCyrillic venue_name then
          [(pyStrip (transliterate_ru venue_name) ++ strOf " Koh Phangan", primary_model)]
        else []))
  ++ [(venue_name, fallback_model)]

/-- Outcome of one _call_gemini invocation (its internal transient-retry loop
included): a parsed dict, a JSONDecodeError, or any other exception.  One
scripted outcome corresponds to one AI call in the aiCalls count. -/
inductive GemOutcome where
  | ok (result : VenueRec)
  | jsonErr
  | fail

/-- The lat/lng validation of enrich: `lat and lng and isinstance(lat, (int,
float))` — a nonzero number (True counts as the integer 1, a Python quirk of
bool being an int subtype; zero and everything else is rejected). -/
def numValid : JVal → Option Int
  | .jnum n => if n == 0 then none else some n
  | .jbool true => some 1
  | _ => none

/-- The venue_data dict built on a successful geocoding attempt. -/
def mkVenueData (venue_name : Str) (result : VenueRec) (lat lng : Int) : VenueRec :=
  [(kFound, .jbool true),
   (kName, getFieldD result kName (.jstr venue_name)),
   (kLat, .jnum lat), (kLng, .jnum lng),
   (kMapsUrl, getFieldD result kMapsUrl (.jstr [])),
   (kAddress, getFieldD result kAddress (.jstr []))]

/-- Result of one enrich call: the returned record, the memory tier after
the call, and how many AI calls were made. -/
structure EnrichRes where
  result : Option VenueRec
  mem : VenueMem
  aiCalls : Nat

/-- After the attempt loop is exhausted: the Google Maps API fallback when
configured and successful (mapsResult combines the API-key check and the
call result), otherwise the negative cache entry is written and None
returned. -/
def enrichFinish (mapsResult : Option VenueRec) (venue_name : Str) (mem : VenueMem)
    (calls : Nat) : EnrichRes :=
  match mapsResult with
  | some mres => ⟨some mres, aput mem venue_name mres, calls⟩
  | none => ⟨none, aput mem venue_name [(kFound, .jbool false)], calls⟩

/-- The attempt loop of enrich: each attempt consumes one scripted AI
outcome; a result with found truthy and valid coordinates is cached and
returned; everything else (found false, bad coordinates, JSON error, other
exception) moves on to the next attempt. -/
def enrichLoop (script : Nat → GemOutcome) (mapsResult : Option VenueRec)
    (venue_name : Str) : List (Str × Str) → Nat → VenueMem → EnrichRes
  | [], calls, mem => enrichFinish mapsResult venue_name mem calls
  | _attempt :: rest, calls, mem =>
    match script calls with
    | .ok result =>
      if pyTruthy (getFieldD result kFound (.jbool true)) then
        match numValid (getFieldD result kLat .jnull),
            numValid (getFieldD result kLng .jnull) with
        | some lat, some lng =>
          let vd := mkVenueData venue_name result lat lng
          ⟨some vd, aput mem venue_name vd, calls + 1⟩
        | _, _ => enrichLoop script mapsResult venue_name rest (calls + 1) mem
      else enrichLoop script mapsResult venue_name rest (calls + 1) mem
    | .jsonErr => enrichLoop script mapsResult venue_name rest (calls + 1) mem
    | .fail => enrichLoop script mapsResult venue_name rest (calls + 1) mem

/-- VenueEnricher.enrich: placeholder guard, cache lookup with immediate
return on any hit (positive or negative), then the AI attempt pipeline. -/
def enrich (mem : VenueMem) (pg : Str → Option VenueRec) (script : Nat → GemOutcome)
    (mapsResult : Option VenueRec) (venue_name : Str) : EnrichRes :=
  if venue_name.isEmpty || venue_name == strOf "TBD" || venue_name == strOf "N/A" then
    ⟨none, mem, 0⟩
  else
    match aget mem pg venue_name with
    | (some cached, mem1) =>
      ⟨if pyTruthy (getFieldD cached kFound (.jbool true)) then some cached else none,
        mem1, 0⟩
    | (none, mem1) =>
      enrichLoop script mapsResult venue_name (attempts_to_make venue_name) 0 mem1

/-- Memory tier and query for the C6 counterexample: a positive record cached
under the normalized key "tbd". -/
def c6Mem : VenueMem := [(strOf "tbd", [(kFound, .jbool true), (kLat, .jnum 9)])]

/-- Memory tier for the C6 witness: a negative (not-found) entry. -/
def c6NegMem : VenueMem := [(strOf "zen beach", [(kFound, .jbool false)])]

-- ── PreFilter (filters.py) ──

/-- A word character of Python re with Unicode semantics, restricted to the
ranges the embedded texts and patterns use: ASCII letters, digits,
underscore, Cyrillic letters, and the accented e of "café". -/
def reWordChar (c : Char) : Bool :=
  (97 ≤ c.toNat && c.toNat ≤ 122) || (65 ≤ c.toNat && c.toNat ≤ 90)
  || (48 ≤ c.toNat && c.toNat ≤ 57) || c = '_'
  || (1072 ≤ c.toNat && c.toNat ≤ 1103) || (1040 ≤ c.toNat && c.toNat ≤ 1071)
  || c.toNat = 1105 || c.toNat = 1025 || c.toNat = 233 || c.toNat = 201

/-- filters.BLACKLIST_WORDS, in source order. -/
def BLACKLIST_WORDS : List Str :=
  [strOf "сдам", strOf "сниму", strOf "аренда", strOf "вилла", strOf "кондо",
   strOf "квартир", strOf "комнат",
   strOf "жильё", strOf "жилье", strOf "апартамент", strOf "резиденс",
   strOf "долгосрок", strOf "краткосрок",
   strOf "visa", strOf "виза", strOf "разрешение на работу", strOf "work permit",
   strOf "extension",
   strOf "usdt", strOf "крипт", strOf "биткоин", strOf "btc", strOf "eth",
   strOf "обмен", strOf "меняю", strOf "курс валют",
   strOf "exchange rate", strOf "p2p",
   strOf "байк", strOf "nmax", strOf "скутер", strOf "мотобайк",
   strOf "аренда байк", strOf "rent bike",
   strOf "ноготочки", strOf "массаж", strOf "маникюр", strOf "педикюр",
   strOf "наращивание", strOf "эпиляци",
   strOf "трансфер", strOf "такси", strOf "доставка", strOf "клининг",
   strOf "стирка", strOf "уборка",
   strOf "ремонт", strOf "сантехник", strOf "электрик",
   strOf "реконструкц", strOf "лифтинг", strOf "фотосесс", strOf "bbl",
   strOf "ботокс", strOf "филлер",
   strOf "продам", strOf "куплю", strOf "продаю", strOf "б/у", strOf "торг",
   strOf "ищу работу", strOf "вакансия", strOf "требуется", strOf "зарплата"]

/-- filters.WHITELIST_WORDS, in source order. -/
def WHITELIST_WORDS : List Str :=
  [strOf "ивент", strOf "мероприятие", strOf "вечеринка", strOf "тусовка",
   strOf "тусовк", strOf "митап",
   strOf "нетворкинг", strOf "встреча", strOf "сходка", strOf "движ", strOf "движух",
   strOf "спорт", strOf "йога", strOf "серфинг", strOf "волейбол", strOf "футбол",
   strOf "бег",
   strOf "мастер-класс", strOf "воркшоп", strOf "лекция", strOf "семинар",
   strOf "концерт", strOf "фестиваль", strOf "вечер", strOf "открытие",
   strOf "вход", strOf "билет", strOf "регистрация", strOf "вход свободный",
   strOf "приглашаем", strOf "приходите", strOf "ждём", strOf "ждем",
   strOf "присоединяйтесь",
   strOf "добро пожаловать",
   strOf "event", strOf "party", strOf "meetup", strOf "networking", strOf "gathering",
   strOf "workshop", strOf "masterclass", strOf "lecture", strOf "seminar",
   strOf "concert", strOf "festival", strOf "opening", strOf "dj", strOf "live music",
   strOf "ticket", strOf "free entry", strOf "registration", strOf "rsvp",
   strOf "join us", strOf "welcome", strOf "come join",
   strOf "sunset", strOf "beach party", strOf "pool party", strOf "rooftop"]

/-- The boundary required before an alternative of a word-boundary-anchored
alternation whose words all start with word characters: start of text or a
preceding non-word character. -/
def boundaryOk : Option Char → Bool
  | none => true
  | some p => !reWordChar p

/-- re.search of a pattern backslash-b (w1|w2|...): scan every position,
requiring the boundary and then any alternative as a prefix. -/
def boundarySearchAux (words : List Str) : Option Char → Str → Bool
  | _, [] => false
  | prev, c :: rest =>
    (boundaryOk prev && words.any (fun w => List.isPrefixOf w (c :: rest)))
      || boundarySearchAux words (some c) rest

/-- _blacklist_pattern.search(text) as a Bool: case-insensitive via
lowercasing (the word lists are lowercase). -/
def blacklistHit (text : Str) : Bool :=
  boundarySearchAux BLACKLIST_WORDS none (lower text)

/-- len(_whitelist_pattern.findall(text)): non-overlapping scan from the
left; at a boundary position the first alternative (in source order) that
matches is taken and the scan resumes after it.  Fuel decreases by one per
step and one step consumes at least one character, so text.length + 1
suffices. -/
def findallCountAux (words : List Str) : Nat → Option Char → Str → Nat
  | 0, _, _ => 0
  | _ + 1, _, [] => 0
  | fuel + 1, prev, c :: rest =>
    if boundaryOk prev then
      match words.find? (fun w => List.isPrefixOf w (c :: rest)) with
      | some w => 1 + findallCountAux words fuel w.getLast? ((c :: rest).drop w.length)
      | none => findallCountAux words fuel (some c) rest
    else findallCountAux words fuel (some c) rest

def wlCount (text : Str) : Nat :=
  findallCountAux WHITELIST_WORDS (text.length + 1) none (lower text)

-- A small combinator embedding for the date/time and location regexes.
-- The filter only tests whether these patterns match anywhere (findall is
-- used in a boolean position), and existence of a match is independent of
-- greediness, so a matcher returns every reachable state.

/-- A matcher state: the previous character (for word boundaries) and the
remaining text. -/
abbrev MState := Option Char × Str

abbrev Matcher := MState → List MState

/-- A literal string. -/
def mLit (w : Str) : Matcher := fun s =>
  if List.isPrefixOf w s.2 then
    [((w.getLast?).orElse (fun _ => s.1), s.2.drop w.length)]
  else []

/-- A single character from a class. -/
def mCls (f : Char → Bool) : Matcher := fun s =>
  match s.2 with
  | [] => []
  | c :: rest => if f c then [(some c, rest)] else []

def mSeq (m1 m2 : Matcher) : Matcher := fun s => (m1 s).flatMap m2

def mSeqs (ms : List Matcher) : Matcher :=
  ms.foldr mSeq (fun s => [s])

def mAlt (ms : List Matcher) : Matcher := fun s => ms.flatMap (fun m => m s)

/-- A question-mark suffix. -/
def mOpt (m : Matcher) : Matcher := fun s => s :: m s

/-- backslash-b: a transition between word and non-word. -/
def mBnd : Matcher := fun s =>
  if (s.1.any reWordChar) != ((s.2.head?).any reWordChar) then [s] else []

def starClsAux (f : Char → Bool) : Option Char → Str → List MState
  | p, [] => [(p, [])]
  | p, c :: rest =>
    (p, c :: rest) :: (if f c then starClsAux f (some c) rest else [])

/-- A starred character class. -/
def mStarCls (f : Char → Bool) : Matcher := fun s => starClsAux f s.1 s.2

/-- A plus-repeated character class. -/
def mPlusCls (f : Char → Bool) : Matcher := mSeq (mCls f) (mStarCls f)

def reDigit (c : Char) : Bool := 48 ≤ c.toNat && c.toNat ≤ 57

/-- backslash-d{1,2}. -/
def mD12 : Matcher := mSeq (mCls reDigit) (mOpt (mCls reDigit))

/-- re.search of a matcher: try every start position. -/
def rsearchAux (m : Matcher) : Option Char → Str → Bool
  | prev, [] => !(m (prev, [])).isEmpty
  | prev, c :: rest => !(m (prev, c :: rest)).isEmpty || rsearchAux m (some c) rest

def rsearch (m : Matcher) (l : Str) : Bool := rsearchAux m none l

def dotSlash (c : Char) : Bool := c = '.' || c = '/'

def colonDot (c : Char) : Bool := c = ':' || c = '.'

/-- filters.DATE_TIME_PATTERNS, in source order, as matchers (matched against
the lowercased text, modelling re.IGNORECASE). -/
def DATE_TIME_MATCHERS : List Matcher :=
  [mSeqs [mD12, mCls dotSlash, mD12,
     mOpt (mSeqs [mCls dotSlash, mCls reDigit, mCls reDigit,
       mOpt (mCls reDigit), mOpt (mCls reDigit)])],
   mSeqs [mD12, mStarCls pyWs,
     mAlt [mLit (strOf "января"), mLit (strOf "февраля"), mLit (strOf "марта"),
       mLit (strOf "апреля"), mLit (strOf "мая"), mLit (strOf "июня"),
       mLit (strOf "июля"), mLit (strOf "августа"), mLit (strOf "сентября"),
       mLit (strOf "октября"), mLit (strOf "ноября"), mLit (strOf "декабря")]],
   mSeqs [mBnd,
     mAlt [mLit (strOf "january"), mLit (strOf "february"), mLit (strOf "march"),
       mLit (strOf "april"), mLit (strOf "may"), mLit (strOf "june"),
       mLit (strOf "july"), mLit (strOf "august"), mLit (strOf "september"),
       mLit (strOf "october"), mLit (strOf "november"), mLit (strOf "december")],
     mPlusCls pyWs, mD12],
   mSeqs [mBnd, mLit (strOf "в"), mPlusCls pyWs, mD12, mCls colonDot,
     mCls reDigit, mCls reDigit, mBnd],
   mSeqs [mBnd, mAlt [mLit (strOf "at"), mLit (strOf "from")], mPlusCls pyWs,
     mD12, mCls colonDot, mCls reDigit, mCls reDigit, mBnd],
   mSeqs [mD12, mCls colonDot, mCls reDigit, mCls reDigit, mStarCls pyWs,
     mAlt [mLit (strOf "-"), mLit (strOf "–"), mLit (strOf "—")],
     mStarCls pyWs, mD12, mCls colonDot, mCls reDigit, mCls reDigit],
   mSeqs [mBnd, mAlt [mLit (strOf "сегодня"), mLit (strOf "завтра"),
     mLit (strOf "послезавтра")], mBnd],
   mSeqs [mBnd, mAlt [mLit (strOf "today"), mLit (strOf "tomorrow")], mBnd],
   mSeqs [mBnd, mOpt (mSeqs [mLit (strOf "в"), mPlusCls pyWs]),
     mAlt [mLit (strOf "понедельник"), mLit (strOf "вторник"),
       mSeqs [mLit (strOf "сред"), mCls (fun c => c = 'у' || c = 'ы')],
       mLit (strOf "четверг"),
       mSeqs [mLit (strOf "пятниц"), mCls (fun c => c = 'у' || c = 'ы')],
       mSeqs [mLit (strOf "суббот"), mCls (fun c => c = 'у' || c = 'ы')],
       mSeqs [mLit (strOf "воскресень"), mCls (fun c => c = 'е' || c = 'я')]],
     mBnd],
   mSeqs [mBnd, mOpt (mSeqs [mLit (strOf "on"), mPlusCls pyWs]),
     mAlt [mLit (strOf "monday"), mLit (strOf "tuesday"), mLit (strOf "wednesday"),
       mLit (strOf "thursday"), mLit (strOf "friday"), mLit (strOf "saturday"),
       mLit (strOf "sunday")],
     mBnd]]

/-- The pin emoji of the first location pattern. -/
def pinChar : Char := Char.ofNat 128205

/-- filters.LOCATION_PATTERNS, in source order, as matchers. -/
def LOCATION_MATCHERS : List Matcher :=
  [mLit [pinChar],
   mSeqs [mBnd,
     mAlt [mSeqs [mLit (strOf "beach"), mStarCls pyWs, mLit (strOf "club")],
       mLit (strOf "bar"), mLit (strOf "café"), mLit (strOf "cafe"),
       mLit (strOf "кафе"), mLit (strOf "бар"), mLit (strOf "ресторан"),
       mLit (strOf "restaurant")],
     mBnd],
   mSeqs [mBnd,
     mAlt [mLit (strOf "coworking"), mLit (strOf "коворкинг"), mLit (strOf "hub"),
       mLit (strOf "хаб"), mLit (strOf "space"), mLit (strOf "пространство")],
     mBnd],
   mSeqs [mBnd,
     mAlt [mLit (strOf "клуб"), mLit (strOf "club"), mLit (strOf "pool"),
       mLit (strOf "бассейн"), mLit (strOf "rooftop"), mLit (strOf "крыша")],
     mBnd],
   mSeqs [mBnd,
     mAlt [mLit (strOf "адрес"), mLit (strOf "address"), mLit (strOf "место"),
       mLit (strOf "location"), mLit (strOf "venue"), mLit (strOf "площадка")],
     mBnd],
   mSeqs [mBnd,
     mAlt [mSeqs [mLit (strOf "google"), mStarCls pyWs, mLit (strOf "maps")],
       mLit (strOf "goo.gl"), mLit (strOf "maps.app")],
     mBnd]]

/-- bool(_datetime_pattern.findall(text)). -/
def dtHit (text : Str) : Bool :=
  DATE_TIME_MATCHERS.any (fun m => rsearch m (lower text))

/-- bool(_location_pattern.findall(text)). -/
def locHit (text : Str) : Bool :=
  LOCATION_MATCHERS.any (fun m => rsearch m (lower text))

/-- One step test of _strip_urls: does an https?:// URL with at least one
following non-whitespace character start here?  (The pattern is compiled
without IGNORECASE, so the scheme is matched case-sensitively.) -/
def urlAt (l : Str) : Bool :=
  (List.isPrefixOf (strOf "https://") l
    && !(((l.drop 8).takeWhile (fun c => !pyWs c)).isEmpty))
  || (List.isPrefixOf (strOf "http://") l
    && !(((l.drop 7).takeWhile (fun c => !pyWs c)).isEmpty))

def urlLen (l : Str) : Nat :=
  if List.isPrefixOf (strOf "https://") l then
    8 + ((l.drop 8).takeWhile (fun c => !pyWs c)).length
  else 7 + ((l.drop 7).takeWhile (fun c => !pyWs c)).length

/-- re.sub(r"https?://S+", "", text): remove each URL, scanning left to
right.  Fuel decreases by one per step and every step consumes at least one
character. -/
def stripUrlsAux : Nat → Str → Str
  | 0, l => l
  | _ + 1, [] => []
  | fuel + 1, c :: rest =>
    if urlAt (c :: rest) then stripUrlsAux fuel ((c :: rest).drop (urlLen (c :: rest)))
    else c :: stripUrlsAux fuel rest

def stripUrls (text : Str) : Str := stripUrlsAux text.length text

/-- filters.FilterResult.  The reason strings of the source interpolate
diagnostic details; they are abbreviated here to constant tags, which no
embedded code path reads. -/
structure FilterResult where
  passed : Bool
  score : Int
  reason : Str

def MIN_TEXT_LENGTH : Nat := 80

def SCORE_THRESHOLD : Int := 2

/-- filters.check. -/
def check (text : Str) (has_media : Bool) : FilterResult :=
  if text.isEmpty then ⟨false, 0, strOf "empty"⟩
  else if blacklistHit text then ⟨false, -1, strOf "blacklist"⟩
  else if decide ((pyStrip (stripUrls text)).length < MIN_TEXT_LENGTH) then
    ⟨false, 0, strOf "too_short"⟩
  else
    let wl := wlCount text
    let score : Int :=
      (if wl != 0 then ((min wl 3 : Nat) : Int) else 0)
      + (if dtHit text then 2 else 0) + (if locHit text then 1 else 0)
      + (if has_media then 1 else 0)
    ⟨decide (SCORE_THRESHOLD ≤ score), score, strOf "scored"⟩

/-- The score formula as the specification words it: min(whitelist-matches,
3) plus 2 for a date/time pattern, 1 for a location marker, 1 for media. -/
def spec_prefilter_score (text : Str) (has_media : Bool) : Int :=
  ((min (wlCount text) 3 : Nat) : Int)
  + (if dtHit text then 2 else 0) + (if locHit text then 1 else 0)
  + (if has_media then 1 else 0)

/-- Concrete message for the C8 instance: a whitelist term, the time pattern
"в 19:00", over 80 characters, no blacklist term. -/
def c8Text : Str :=
  strOf "Завтра в 19:00 йога на закате на пляже Zen Beach. Вход свободный, приглашаем всех на тёплый вечер у моря!"

/-- Concrete message for the C9 witness, the classified ad of the spec. -/
def c9Text : Str := strOf "Продам байк Nmax 2023, 45000 бат"

-- ════════ THEOREMS ════════

-- ── C1 lemmas ──

theorem toNat_ofNat_valid (n : Nat) (h : n < 55296) : (Char.ofNat n).toNat = n := by
  have hv : Nat.isValidChar n := Or.inl h
  simp only [Char.ofNat, dif_pos hv, Char.ofNatAux, Char.toNat]
  rfl

theorem lowChar_idem (c : Char) : lowChar (lowChar c) = lowChar c := by
  unfold lowChar
  by_cases h1 : 65 ≤ c.toNat ∧ c.toNat ≤ 90
  · have ht : (Char.ofNat (c.toNat + 32)).toNat = c.toNat + 32 :=
      toNat_ofNat_valid _ (by omega)
    simp only [if_pos h1, ht]
    rw [if_neg (by omega), if_neg (by omega), if_neg (by omega)]
  · by_cases h2 : c.toNat = 1025
    · have ht : (Char.ofNat 1105).toNat = 1105 := toNat_ofNat_valid _ (by omega)
      simp only [if_neg h1, if_pos h2, ht]
      rw [if_neg (by omega), if_neg (by omega), if_neg (by omega)]
    · by_cases h3 : 1040 ≤ c.toNat ∧ c.toNat ≤ 1071
      · have ht : (Char.ofNat (c.toNat + 32)).toNat = c.toNat + 32 :=
          toNat_ofNat_valid _ (by omega)
        simp only [if_neg h1, if_neg h2, if_pos h3, ht]
        rw [if_neg (by omega), if_neg (by omega), if_neg (by omega)]
      · simp only [if_neg h1, if_neg h2, if_neg h3]

theorem mem_pyStrip {c : Char} {l : Str} (h : c ∈ pyStrip l) : c ∈ l := by
  unfold pyStrip at h
  rw [List.mem_reverse] at h
  have h1 := (List.dropWhile_sublist (l := (l.dropWhile pyWs).reverse) pyWs).mem h
  rw [List.mem_reverse] at h1
  exact (List.dropWhile_sublist pyWs).mem h1

theorem mem_stripLocSuffix {c : Char} {l : Str} (h : c ∈ stripLocSuffix l) : c ∈ l := by
  unfold stripLocSuffix at h
  cases hf : LOCATION_SUFFIXES.find? (fun suf => List.isSuffixOf suf l) with
  | none => rw [hf] at h; exact h
  | some suf =>
    rw [hf] at h
    exact List.take_subset _ _ (mem_pyStrip h)

theorem mem_cleanName {c : Char} {l : Str} (h : c ∈ cleanName l) :
    c ∈ l ∧ allowedChar c = true := by
  unfold cleanName at h
  exact List.mem_filter.mp h

theorem mem_splitWsAux {p : Str} {c : Char} :
    ∀ (l acc : Str), p ∈ splitWsAux l acc → c ∈ p → c ∈ l ∨ c ∈ acc := by
  intro l
  induction l with
  | nil =>
    intro acc hp hc
    cases acc with
    | nil => cases hp
    | cons a as =>
      simp only [splitWsAux, List.mem_singleton] at hp
      right
      rw [hp] at hc
      exact List.mem_reverse.mp hc
  | cons d ds ih =>
    intro acc hp hc
    unfold splitWsAux at hp
    by_cases hd : pyWs d
    · simp only [hd, if_true] at hp
      cases acc with
      | nil =>
        rcases ih [] hp hc with h | h
        · exact Or.inl (List.mem_cons_of_mem _ h)
        · cases h
      | cons a as =>
        rcases List.mem_cons.mp hp with h | h
        · right
          rw [h] at hc
          exact List.mem_reverse.mp hc
        · rcases ih [] h hc with h2 | h2
          · exact Or.inl (List.mem_cons_of_mem _ h2)
          · cases h2
    · simp only [hd, if_false, Bool.false_eq_true] at hp
      rcases ih (d :: acc) hp hc with h | h
      · exact Or.inl (List.mem_cons_of_mem _ h)
      · rcases List.mem_cons.mp h with h2 | h2
        · exact Or.inl (h2 ▸ List.mem_cons_self d ds)
        · exact Or.inr h2

theorem mem_splitWs {p : Str} {c : Char} {l : Str} (hp : p ∈ splitWs l) (hc : c ∈ p) :
    c ∈ l := by
  rcases mem_splitWsAux l [] hp hc with h | h
  · exact h
  · cases h

theorem mem_joinSpace {c : Char} :
    ∀ {ps : List Str}, c ∈ joinSpace ps → (∃ p ∈ ps, c ∈ p) ∨ c = ' ' := by
  intro ps
  induction ps with
  | nil => intro h; cases h
  | cons p qs ih =>
    intro h
    cases qs with
    | nil =>
      simp only [joinSpace] at h
      exact Or.inl ⟨p, List.mem_cons_self _ _, h⟩
    | cons q rs =>
      simp only [joinSpace] at h
      rcases List.mem_append.mp h with h1 | h1
      · exact Or.inl ⟨p, List.mem_cons_self _ _, h1⟩
      · rcases List.mem_cons.mp h1 with h2 | h2
        · exact Or.inr h2
        · rcases ih h2 with ⟨r, hr, hcr⟩ | h3
          · exact Or.inl ⟨r, List.mem_cons_of_mem _ hr, hcr⟩
          · exact Or.inr h3

theorem splitWsAux_wf :
    ∀ (l acc : Str), acc.all (fun c => !pyWs c) = true →
      wfParts (splitWsAux l acc) = true := by
  intro l
  induction l with
  | nil =>
    intro acc hacc
    cases acc with
    | nil => rfl
    | cons a as =>
      simp only [splitWsAux, wfParts, List.all_cons, List.all_nil, Bool.and_true, wfPart,
        Bool.and_eq_true, List.all_reverse]
      refine ⟨by simp, by simpa using hacc⟩
  | cons d ds ih =>
    intro acc hacc
    unfold splitWsAux
    by_cases hd : pyWs d
    · simp only [hd, if_true]
      cases acc with
      | nil => exact ih [] rfl
      | cons a as =>
        simp only [wfParts, List.all_cons, Bool.and_eq_true]
        refine ⟨?_, ih [] rfl⟩
        simp only [wfPart, Bool.and_eq_true, List.all_reverse]
        exact ⟨by simp, hacc⟩
    · simp only [hd, if_false, Bool.false_eq_true]
      apply ih
      simp only [List.all_cons, Bool.and_eq_true]
      exact ⟨by simp [hd], hacc⟩

theorem splitWs_wf (l : Str) : wfParts (splitWs l) = true :=
  splitWsAux_wf l [] rfl

theorem splitWsAux_append :
    ∀ (p : Str), p.all (fun c => !pyWs c) = true →
    ∀ (l acc : Str), splitWsAux (p ++ l) acc = splitWsAux l (p.reverse ++ acc) := by
  intro p
  induction p with
  | nil => intro _ l acc; simp
  | cons c cs ih =>
    intro hp l acc
    simp only [List.all_cons, Bool.and_eq_true] at hp
    have hc : pyWs c = false := by
      have h1 := hp.1
      simp only [Bool.not_eq_true'] at h1
      exact h1
    have hstep : splitWsAux (c :: (cs ++ l)) acc = splitWsAux (cs ++ l) (c :: acc) := by
      conv_lhs => unfold splitWsAux
      simp [hc]
    rw [List.cons_append, hstep, ih hp.2]
    simp

theorem splitWs_joinSpace :
    ∀ (ps : List Str), wfParts ps = true → splitWs (joinSpace ps) = ps := by
  intro ps
  induction ps with
  | nil => intro _; rfl
  | cons p qs ih =>
    intro hwf
    simp only [wfParts, List.all_cons, Bool.and_eq_true] at hwf
    obtain ⟨hp, hqs⟩ := hwf
    simp only [wfPart, Bool.and_eq_true, Bool.not_eq_true] at hp
    obtain ⟨hpne, hpws⟩ := hp
    have hpne2 : p ≠ [] := by simpa using hpne
    have hrevne : p.reverse ≠ [] := by simpa using hpne2
    cases qs with
    | nil =>
      show splitWsAux (joinSpace [p]) [] = [p]
      have h0 : joinSpace [p] = p ++ ([] : Str) := by simp [joinSpace]
      rw [h0, splitWsAux_append p (by simpa using hpws)]
      cases hrp : p.reverse with
      | nil => exact absurd hrp hrevne
      | cons a as =>
        show splitWsAux [] (a :: as ++ []) = [p]
        simp only [List.append_eq, List.append_nil, splitWsAux]
        rw [← hrp, List.reverse_reverse]
    | cons q rs =>
      show splitWsAux (joinSpace (p :: q :: rs)) [] = p :: q :: rs
      have h0 : joinSpace (p :: q :: rs) = p ++ ' ' :: joinSpace (q :: rs) := by
        simp [joinSpace]
      rw [h0, splitWsAux_append p (by simpa using hpws), List.append_nil]
      have hsp : pyWs ' ' = true := rfl
      cases hrp : p.reverse with
      | nil => exact absurd hrp hrevne
      | cons a as =>
        show splitWsAux (' ' :: joinSpace (q :: rs)) (a :: as) = p :: q :: rs
        conv_lhs => unfold splitWsAux
        simp only [hsp, if_true]
        rw [← hrp, List.reverse_reverse]
        have := ih (by simpa [wfParts] using hqs)
        simp only [splitWs] at this
        rw [this]

theorem collapseWs_idem (l : Str) : collapseWs (collapseWs l) = collapseWs l := by
  unfold collapseWs
  rw [splitWs_joinSpace _ (splitWs_wf l)]

theorem dropWhile_eq_self_of_head {l : Str} {p : Char → Bool}
    (h : ∀ c, l.head? = some c → p c = false) : l.dropWhile p = l := by
  cases l with
  | nil => rfl
  | cons c cs =>
    rw [List.dropWhile_cons, h c rfl]
    simp

theorem joinSpace_head_not_ws :
    ∀ (ps : List Str), wfParts ps = true →
      ∀ c, (joinSpace ps).head? = some c → pyWs c = false := by
  intro ps
  induction ps with
  | nil => intro _ c hc; cases hc
  | cons p qs _ =>
    intro hwf c hc
    simp only [wfParts, List.all_cons, Bool.and_eq_true] at hwf
    obtain ⟨hp, _⟩ := hwf
    simp only [wfPart, Bool.and_eq_true] at hp
    obtain ⟨hpne, hpws⟩ := hp
    have hpne2 : p ≠ [] := by simpa using hpne
    have hall : ∀ x ∈ p, pyWs x = false := by simpa using hpws
    cases hpp : p with
    | nil => exact absurd hpp hpne2
    | cons a as =>
      have hja : (joinSpace ((a :: as) :: qs)).head? = some a := by
        cases qs with
        | nil => rfl
        | cons q rs => rfl
      rw [hpp] at hc
      rw [hja] at hc
      cases hc
      exact hall c (by rw [hpp]; exact List.mem_cons_self _ _)

theorem joinSpace_getLast_not_ws :
    ∀ (ps : List Str), wfParts ps = true →
      ∀ c, (joinSpace ps).getLast? = some c → pyWs c = false := by
  intro ps
  induction ps with
  | nil => intro _ c hc; cases hc
  | cons p qs ih =>
    intro hwf c hc
    simp only [wfParts, List.all_cons, Bool.and_eq_true] at hwf
    obtain ⟨hp, hqs⟩ := hwf
    simp only [wfPart, Bool.and_eq_true] at hp
    obtain ⟨hpne, hpws⟩ := hp
    have hall : ∀ x ∈ p, pyWs x = false := by simpa using hpws
    cases qs with
    | nil =>
      simp only [joinSpace] at hc
      exact hall c (List.mem_of_getLast?_eq_some hc)
    | cons q rs =>
      simp only [joinSpace] at hc
      have hjne : joinSpace (q :: rs) ≠ [] := by
        simp only [wfParts, List.all_cons, Bool.and_eq_true] at hqs
        obtain ⟨hq, _⟩ := hqs
        simp only [wfPart, Bool.and_eq_true] at hq
        have hqne : q ≠ [] := by simpa using hq.1
        cases hqq : q with
        | nil => exact absurd hqq hqne
        | cons b bs =>
          cases rs with
          | nil => simp [joinSpace, hqq]
          | cons r ts => simp [joinSpace, hqq]
      rw [List.getLast?_append] at hc
      have hJ : (' ' :: joinSpace (q :: rs)).getLast? = (joinSpace (q :: rs)).getLast? := by
        cases hJJ : joinSpace (q :: rs) with
        | nil => exact absurd hJJ hjne
        | cons b bs => exact List.getLast?_cons_cons
      rw [hJ] at hc
      cases hJJ : (joinSpace (q :: rs)).getLast? with
      | none =>
        rw [List.getLast?_eq_none_iff] at hJJ
        exact absurd hJJ hjne
      | some d =>
        rw [hJJ] at hc
        simp only [Option.or] at hc
        cases hc
        exact ih hqs _ hJJ

theorem pyStrip_eq_self {l : Str}
    (h1 : ∀ c, l.head? = some c → pyWs c = false)
    (h2 : ∀ c, l.getLast? = some c → pyWs c = false) : pyStrip l = l := by
  unfold pyStrip
  rw [dropWhile_eq_self_of_head h1]
  rw [dropWhile_eq_self_of_head (by intro c hc; rw [List.head?_reverse] at hc; exact h2 c hc)]
  exact List.reverse_reverse l

theorem lower_eq_self {l : Str} (h : ∀ c ∈ l, lowChar c = c) : lower l = l :=
  (List.map_congr_left h).trans (List.map_id l)

theorem cleanName_eq_self {l : Str} (h : ∀ c ∈ l, allowedChar c = true) : cleanName l = l :=
  List.filter_eq_self.mpr h

theorem stripLocSuffix_eq_self {l : Str}
    (h : ∀ suf ∈ LOCATION_SUFFIXES, List.isSuffixOf suf l = false) :
    stripLocSuffix l = l := by
  unfold stripLocSuffix
  have hnone : LOCATION_SUFFIXES.find? (fun suf => List.isSuffixOf suf l) = none :=
    List.find?_eq_none.mpr (by intro suf hsuf; simp [h suf hsuf])
  rw [hnone]

theorem normCore_good (x : Str) :
    ∀ c ∈ normCore x, allowedChar c = true ∧ lowChar c = c := by
  intro c hc
  unfold normCore collapseWs at hc
  rcases mem_joinSpace hc with ⟨p, hp, hcp⟩ | hsp
  · have hcw := mem_splitWs hp hcp
    obtain ⟨hmem, hallow⟩ := mem_cleanName hcw
    have hlx : c ∈ lower x := mem_pyStrip (mem_stripLocSuffix hmem)
    obtain ⟨d, _, hd⟩ := List.mem_map.mp hlx
    refine ⟨hallow, ?_⟩
    rw [← hd]
    exact lowChar_idem d
  · subst hsp
    exact ⟨by decide, by decide⟩

theorem normCore_head_not_ws (x : Str) :
    ∀ c, (normCore x).head? = some c → pyWs c = false := by
  intro c hc
  exact joinSpace_head_not_ws _ (splitWs_wf _) c hc

theorem normCore_getLast_not_ws (x : Str) :
    ∀ c, (normCore x).getLast? = some c → pyWs c = false := by
  intro c hc
  exact joinSpace_getLast_not_ws _ (splitWs_wf _) c hc

theorem collapseWs_normCore (x : Str) : collapseWs (normCore x) = normCore x :=
  collapseWs_idem _

theorem alias_values_fixed :
    VENUE_ALIASES.all (fun p => normalize_venue_name p.2 == p.2) = true := by decide

theorem normalize_fix (x : Str)
    (h : ∀ suf ∈ LOCATION_SUFFIXES, List.isSuffixOf suf (normalize_venue_name x) = false) :
    normalize_venue_name (normalize_venue_name x) = normalize_venue_name x := by
  cases hf : VENUE_ALIASES.find? (fun p => p.1 == normCore x) with
  | some pr =>
    have hpr : pr ∈ VENUE_ALIASES := List.mem_of_find?_eq_some hf
    have hx2 : normalize_venue_name x = pr.2 := by
      unfold normalize_venue_name aliasLookup
      rw [hf]
    have hall := List.all_eq_true.mp alias_values_fixed pr hpr
    have hfix : normalize_venue_name pr.2 = pr.2 := by
      exact eq_of_beq (by simpa using hall)
    rw [hx2, hfix]
  | none =>
    have hx2 : normalize_venue_name x = normCore x := by
      unfold normalize_venue_name aliasLookup
      rw [hf]
    rw [hx2] at h ⊢
    have hgood := normCore_good x
    have hlower : lower (normCore x) = normCore x :=
      lower_eq_self (fun c hc => (hgood c hc).2)
    have hstrip : pyStrip (normCore x) = normCore x :=
      pyStrip_eq_self (normCore_head_not_ws x) (normCore_getLast_not_ws x)
    have hsuffix : stripLocSuffix (normCore x) = normCore x :=
      stripLocSuffix_eq_self h
    have hclean : cleanName (normCore x) = normCore x :=
      cleanName_eq_self (fun c hc => (hgood c hc).1)
    show aliasLookup (normCore (normCore x)) = normCore x
    have hcore : normCore (normCore x) = normCore x := by
      rw [show normCore (normCore x) =
            collapseWs (cleanName (stripLocSuffix (pyStrip (lower (normCore x))))) from rfl]
      rw [hlower, hstrip, hsuffix, hclean]
      exact collapseWs_normCore x
    rw [hcore]
    unfold aliasLookup
    rw [hf]

/-- C1, counterexample: the claim normalize(normalize(x)) == normalize(x) for
all inputs fails on the input "a koh phangan koh phangan": one application
strips a single location suffix giving "a koh phangan", a second application
strips again giving "a". -/
theorem C1_normalize_not_idempotent :
    ¬ (normalize_venue_name (normalize_venue_name (strOf "a koh phangan koh phangan")) =
       normalize_venue_name (strOf "a koh phangan koh phangan")) := by decide

/-- C1, amended: venue-name normalization is idempotent on every input whose
normalized form does not itself end with one of the location suffixes (the
suffix-stripping step removes at most one suffix per application, which is
the only source of non-idempotence). -/
theorem C1_normalize_idempotent_amended (x : Str)
    (h : ∀ suf ∈ LOCATION_SUFFIXES, List.isSuffixOf suf (normalize_venue_name x) = false) :
    normalize_venue_name (normalize_venue_name x) = normalize_venue_name x :=
  normalize_fix x h

/-- C1, witness: the amended theorem applied to the concrete input
"AUM Phangan", whose normalized form "aum sound healing center" ends with no
location suffix. -/
theorem C1_witness :
    normalize_venue_name (normalize_venue_name (strOf "AUM Phangan")) =
      normalize_venue_name (strOf "AUM Phangan") :=
  C1_normalize_idempotent_amended (strOf "AUM Phangan") (by decide)

-- ── C3 lemmas ──

theorem getField_setField_self (f : List (Str × JVal)) (k : Str) (v : JVal) :
    getField (setField f k v) k = some v := by
  induction f with
  | nil => simp [setField, getField, List.find?]
  | cons p rest ih =>
    obtain ⟨k0, v0⟩ := p
    by_cases h : (k0 == k) = true
    · simp [setField, h, getField, List.find?]
    · simp only [setField, h, if_false, Bool.false_eq_true]
      simp only [getField, List.find?] at ih ⊢
      simp only [h]
      exact ih

theorem getField_setField_other (f : List (Str × JVal)) (k1 k2 : Str) (v : JVal)
    (h : (k1 == k2) = false) :
    getField (setField f k1 v) k2 = getField f k2 := by
  induction f with
  | nil => simp [setField, getField, List.find?, h]
  | cons p rest ih =>
    obtain ⟨k0, v0⟩ := p
    by_cases h0 : (k0 == k1) = true
    · have hk0 : k0 = k1 := eq_of_beq h0
      simp [setField, h0, getField, List.find?, hk0, h]
    · simp only [setField, h0, if_false, Bool.false_eq_true]
      by_cases h2 : (k0 == k2) = true
      · simp [getField, List.find?, h2]
      · simp only [getField, List.find?, h2] at ih ⊢
        exact ih

theorem getField_fillKey_other (f : List (Str × JVal)) (k1 k2 : Str)
    (h : (k1 == k2) = false) :
    getField (fillKey f k1) k2 = getField f k2 := by
  unfold fillKey
  by_cases hc : hasKey f k1 = true
  · simp [hc]
  · simp only [hc, if_false, Bool.false_eq_true]
    exact getField_setField_other f k1 k2 _ h

theorem getField_setdefault_other (f : List (Str × JVal)) (k1 k2 : Str) (v : JVal)
    (h : (k1 == k2) = false) :
    getField (setdefaultField f k1 v) k2 = getField f k2 := by
  unfold setdefaultField
  by_cases hc : hasKey f k1 = true
  · simp [hc]
  · simp only [hc, if_false, Bool.false_eq_true]
    exact getField_setField_other f k1 k2 v h

theorem getField_of_hasKey {f : List (Str × JVal)} {k : Str} (h : hasKey f k = true) :
    getField f k = some (getFieldD f k .jnull) := by
  unfold hasKey at h
  unfold getFieldD getField
  cases hf : f.find? (fun p => p.1 == k) with
  | none => rw [hf] at h; cases h
  | some p => simp [hf]

theorem getField_fillKey_self_missing (f : List (Str × JVal)) (k : Str)
    (h : hasKey f k = false) :
    getField (fillKey f k) k = some (.jstr (strOf "N/A")) := by
  unfold fillKey
  rw [h]
  simp only [Bool.false_eq_true, if_false]
  exact getField_setField_self f k _

theorem getField_afterDefaults (g : List (Str × JVal)) (k : Str)
    (h1 : (kDate == k) = false) (h2 : (kTime == k) = false)
    (h3 : (kLocationName == k) = false) (h4 : (kDescription == k) = false) :
    getField (afterDefaults g) k = getField g k := by
  unfold afterDefaults
  rw [getField_setdefault_other _ _ _ _ h4, getField_setdefault_other _ _ _ _ h3,
    getField_setdefault_other _ _ _ _ h2, getField_setdefault_other _ _ _ _ h1]

theorem getField_fillRequired_price (f : List (Str × JVal)) :
    getField (fillRequired f) kPrice = getField f kPrice := by
  unfold fillRequired
  rw [getField_fillKey_other _ _ _ (by decide), getField_fillKey_other _ _ _ (by decide),
    getField_fillKey_other _ _ _ (by decide)]

theorem getField_afterCategory_other (f1 : List (Str × JVal)) (k : Str)
    (h : (kCategory == k) = false) :
    getField (afterCategory f1) k = getField f1 k := by
  unfold afterCategory
  by_cases hc : categoryValid (getField f1 kCategory) = true
  · rw [if_pos hc]
  · rw [if_neg (by simpa using hc)]
    exact getField_setField_other _ _ _ _ h

theorem validate_truthy_eq {fields : List (Str × JVal)}
    (h : pyTruthy (getFieldD fields kIsEvent .jnull) = true) :
    validate_result (.jobj fields) =
      .jobj (afterDefaults (afterPrice (afterCategory (fillRequired fields)))) := by
  simp only [validate_result, unlist, validateTop, validateDict, h, Bool.not_true,
    Bool.false_eq_true, if_false]

theorem validate_price_out (fields : List (Str × JVal))
    (h : pyTruthy (getFieldD fields kIsEvent .jnull) = true) :
    outField (validate_result (.jobj fields)) kPrice =
      some (.jnum ((pyInt (getFieldD fields kPrice (.jnum 0))).getD 0)) := by
  rw [validate_truthy_eq h]
  simp only [outField]
  rw [getField_afterDefaults _ _ (by decide) (by decide) (by decide) (by decide)]
  unfold afterPrice
  rw [getField_setField_self]
  have hp : getFieldD (afterCategory (fillRequired fields)) kPrice (.jnum 0)
      = getFieldD fields kPrice (.jnum 0) := by
    unfold getFieldD
    rw [getField_afterCategory_other _ _ (by decide), getField_fillRequired_price]
  rw [hp]

theorem validate_category_out (fields : List (Str × JVal))
    (h : pyTruthy (getFieldD fields kIsEvent .jnull) = true) :
    categoryValid (outField (validate_result (.jobj fields)) kCategory) = true := by
  rw [validate_truthy_eq h]
  simp only [outField]
  rw [getField_afterDefaults _ _ (by decide) (by decide) (by decide) (by decide)]
  rw [show afterPrice (afterCategory (fillRequired fields)) =
        setField (afterCategory (fillRequired fields)) kPrice
          (.jnum ((pyInt (getFieldD (afterCategory (fillRequired fields)) kPrice (.jnum 0))).getD 0))
      from rfl]
  rw [getField_setField_other _ _ _ _ (by decide)]
  unfold afterCategory
  by_cases hc : categoryValid (getField (fillRequired fields) kCategory) = true
  · rw [if_pos hc]
    exact hc
  · rw [if_neg (by simpa using hc), getField_setField_self]
    decide

theorem categoryValid_fillKey (f : List (Str × JVal))
    (hc : categoryValid (getField f kCategory) = false) :
    categoryValid (getField (fillKey f kCategory) kCategory) = false := by
  unfold fillKey
  by_cases hk : hasKey f kCategory = true
  · rw [if_pos hk]
    exact hc
  · rw [if_neg (by simpa using hk)]
    rw [getField_setField_self]
    decide

theorem validate_category_default (fields : List (Str × JVal))
    (h : pyTruthy (getFieldD fields kIsEvent .jnull) = true)
    (hc : categoryValid (getField fields kCategory) = false) :
    outField (validate_result (.jobj fields)) kCategory = some (.jstr (strOf "Chill")) := by
  rw [validate_truthy_eq h]
  simp only [outField]
  rw [getField_afterDefaults _ _ (by decide) (by decide) (by decide) (by decide)]
  rw [show afterPrice (afterCategory (fillRequired fields)) =
        setField (afterCategory (fillRequired fields)) kPrice
          (.jnum ((pyInt (getFieldD (afterCategory (fillRequired fields)) kPrice (.jnum 0))).getD 0))
      from rfl]
  rw [getField_setField_other _ _ _ _ (by decide)]
  unfold afterCategory
  have hfill : categoryValid (getField (fillRequired fields) kCategory) = false := by
    unfold fillRequired
    rw [getField_fillKey_other _ _ _ (by decide)]
    apply categoryValid_fillKey
    rw [getField_fillKey_other _ _ _ (by decide)]
    exact hc
  rw [if_neg (by simp [hfill]), getField_setField_self]

theorem validate_falsy (fields : List (Str × JVal))
    (h : pyTruthy (getFieldD fields kIsEvent .jnull) = false) :
    validate_result (.jobj fields) = .jobj [(kIsEvent, .jbool false)] := by
  simp only [validate_result, unlist, validateTop, validateDict, h, Bool.not_false, if_true]

theorem hasKey_eq_isSome (f : List (Str × JVal)) (k : Str) :
    hasKey f k = (getField f k).isSome := by
  unfold hasKey getField
  cases f.find? (fun p => p.1 == k) <;> rfl

theorem validate_title_filled (fields : List (Str × JVal))
    (h : pyTruthy (getFieldD fields kIsEvent .jnull) = true)
    (hm : hasKey fields kTitle = false) :
    outField (validate_result (.jobj fields)) kTitle = some (.jstr (strOf "N/A")) := by
  rw [validate_truthy_eq h]
  simp only [outField]
  rw [getField_afterDefaults _ _ (by decide) (by decide) (by decide) (by decide)]
  rw [show afterPrice (afterCategory (fillRequired fields)) =
        setField (afterCategory (fillRequired fields)) kPrice
          (.jnum ((pyInt (getFieldD (afterCategory (fillRequired fields)) kPrice (.jnum 0))).getD 0))
      from rfl]
  rw [getField_setField_other _ _ _ _ (by decide)]
  rw [getField_afterCategory_other _ _ (by decide)]
  unfold fillRequired
  rw [getField_fillKey_other _ _ _ (by decide), getField_fillKey_other _ _ _ (by decide)]
  exact getField_fillKey_self_missing fields kTitle hm

theorem validate_summary_filled (fields : List (Str × JVal))
    (h : pyTruthy (getFieldD fields kIsEvent .jnull) = true)
    (hm : hasKey fields kSummary = false) :
    outField (validate_result (.jobj fields)) kSummary = some (.jstr (strOf "N/A")) := by
  rw [validate_truthy_eq h]
  simp only [outField]
  rw [getField_afterDefaults _ _ (by decide) (by decide) (by decide) (by decide)]
  rw [show afterPrice (afterCategory (fillRequired fields)) =
        setField (afterCategory (fillRequired fields)) kPrice
          (.jnum ((pyInt (getFieldD (afterCategory (fillRequired fields)) kPrice (.jnum 0))).getD 0))
      from rfl]
  rw [getField_setField_other _ _ _ _ (by decide)]
  rw [getField_afterCategory_other _ _ (by decide)]
  unfold fillRequired
  have hm2 : hasKey (fillKey (fillKey fields kTitle) kCategory) kSummary = false := by
    rw [hasKey_eq_isSome, getField_fillKey_other _ _ _ (by decide),
      getField_fillKey_other _ _ _ (by decide), ← hasKey_eq_isSome]
    exact hm
  exact getField_fillKey_self_missing _ kSummary hm2

/-- C3, counterexample: the claim that price is coerced to a NON-NEGATIVE
integer is false: a raw result with price_thb = -100 passes through
_validate_result unchanged, int() in Python does not clamp negatives. -/
theorem C3_price_not_nonnegative :
    outField (validate_result (.jobj [(kIsEvent, .jbool true), (kPrice, .jnum (-100))])) kPrice
      = some (.jnum (-100)) ∧ ((-100 : Int) < 0) := by
  exact ⟨rfl, by decide⟩

/-- C3, amended: _validate_result takes the first element of a list result;
returns exactly the bare non-event dict when is_event is falsy or missing;
fills missing title and summary with the sentinel "N/A"; always leaves
category equal to one of the five enum values, replacing an unrecognized or
missing category by the default "Chill"; and coerces price_thb to an integer
(not necessarily non-negative), defaulting to 0 when int() fails. -/
theorem C3_validate_result_amended :
    (∀ (x : JVal) (xs : List JVal), validate_result (.jarr (x :: xs)) = validateTop x)
    ∧ (∀ fields : List (Str × JVal),
        pyTruthy (getFieldD fields kIsEvent .jnull) = false →
        validate_result (.jobj fields) = .jobj [(kIsEvent, .jbool false)])
    ∧ (∀ fields : List (Str × JVal),
        pyTruthy (getFieldD fields kIsEvent .jnull) = true →
        hasKey fields kTitle = false →
        outField (validate_result (.jobj fields)) kTitle = some (.jstr (strOf "N/A")))
    ∧ (∀ fields : List (Str × JVal),
        pyTruthy (getFieldD fields kIsEvent .jnull) = true →
        hasKey fields kSummary = false →
        outField (validate_result (.jobj fields)) kSummary = some (.jstr (strOf "N/A")))
    ∧ (∀ fields : List (Str × JVal),
        pyTruthy (getFieldD fields kIsEvent .jnull) = true →
        categoryValid (outField (validate_result (.jobj fields)) kCategory) = true)
    ∧ (∀ fields : List (Str × JVal),
        pyTruthy (getFieldD fields kIsEvent .jnull) = true →
        categoryValid (getField fields kCategory) = false →
        outField (validate_result (.jobj fields)) kCategory = some (.jstr (strOf "Chill")))
    ∧ (∀ fields : List (Str × JVal),
        pyTruthy (getFieldD fields kIsEvent .jnull) = true →
        outField (validate_result (.jobj fields)) kPrice =
          some (.jnum ((pyInt (getFieldD fields kPrice (.jnum 0))).getD 0))) :=
  ⟨fun _ _ => rfl, validate_falsy,
    validate_title_filled, validate_summary_filled,
    validate_category_out, validate_category_default, validate_price_out⟩

/-- C3, witness: the amended theorem applied to a concrete event dict with an
unparseable price string, which coerces to 0. -/
theorem C3_witness :
    outField (validate_result (.jobj [(kIsEvent, .jbool true), (kPrice, .jstr (strOf "abc"))]))
      kPrice = some (.jnum 0) :=
  (C3_validate_result_amended.2.2.2.2.2.2 [(kIsEvent, .jbool true), (kPrice, .jstr (strOf "abc"))] rfl).trans
    (by rfl)

/-- C2: transient-error retry and fallback protocol of extract.  (1) A
transient failure of the primary model is retried once on the same model: a
server error followed by a success yields exactly two primary calls and the
validated result, with no fallback.  (2) Two consecutive transient failures
switch permanently to the fallback model and increment the fallback counter:
with a success on the fallback, the trace is primary, primary, fallback, the
fallback counter is 1 and the validated result is returned.  (3) If the
fallback also fails transiently on both of its attempts, extract returns
None instead of raising, with trace primary, primary, fallback, fallback. -/
theorem C2_extract_retry_fallback (r : JVal) (script : Nat → CallOutcome) :
    (script 0 = .serverErr → script 1 = .ok r →
      extract_run script =
        ⟨some (validate_result r), [primary_model, primary_model], 0, 0⟩)
    ∧ (script 0 = .serverErr → script 1 = .serverErr → script 2 = .ok r →
      extract_run script =
        ⟨some (validate_result r), [primary_model, primary_model, fallback_model], 1, 0⟩)
    ∧ (script 0 = .serverErr → script 1 = .serverErr → script 2 = .serverErr →
        script 3 = .serverErr →
      extract_run script =
        ⟨none, [primary_model, primary_model, fallback_model, fallback_model], 1, 1⟩) := by
  refine ⟨?_, ?_, ?_⟩
  · intro h0 h1
    unfold extract_run
    rw [h0, h1]
    rfl
  · intro h0 h1 h2
    unfold extract_run
    rw [h0, h1]
    simp only [runPhase, if_true]
    rw [h2]
    rfl
  · intro h0 h1 h2 h3
    unfold extract_run
    rw [h0, h1]
    simp only [runPhase, if_true]
    rw [h2, h3]
    rfl

/-- C2, witness: the theorem applied to a concrete script with two transient
primary failures followed by a fallback success. -/
theorem C2_witness :
    extract_run c2Script =
      ⟨some (validate_result (.jobj [])), [primary_model, primary_model, fallback_model],
        1, 0⟩ :=
  (C2_extract_retry_fallback (.jobj []) c2Script).2.1 rfl rfl rfl

/-- C5: the guard and fail-open parts of the claim hold — a short text
returns False with zero AI calls whatever the AI would do, and an erroring
AI call returns True — but the claim that pre_screen returns a boolean in
all cases is false on the code: for a long enough text and an AI response
parsing to a dict whose is_event field is the string "yes", the source
returns that raw string (the final `return is_event` performs no bool
coercion, contradicting the declared `-> bool` return annotation). -/
theorem C5_pre_screen_returns_raw_value :
    (∀ outcome, pre_screen (strOf "hi") outcome = (.jbool false, 0))
    ∧ pre_screen (strOf "Sunset yoga tomorrow at Zen Beach, 19:00") .err = (.jbool true, 1)
    ∧ (pre_screen (strOf "Sunset yoga tomorrow at Zen Beach, 19:00")
        (.ok (.jobj [(kIsEvent, .jstr (strOf "yes"))]))).1 = .jstr (strOf "yes")
    ∧ ∀ b : Bool,
        (pre_screen (strOf "Sunset yoga tomorrow at Zen Beach, 19:00")
          (.ok (.jobj [(kIsEvent, .jstr (strOf "yes"))]))).1 ≠ .jbool b :=
  by
  refine ⟨fun _ => rfl, rfl, rfl, ?_⟩
  intro b h
  rw [show (pre_screen (strOf "Sunset yoga tomorrow at Zen Beach, 19:00")
      (.ok (.jobj [(kIsEvent, .jstr (strOf "yes"))]))).1 = .jstr (strOf "yes") from rfl] at h
  exact JVal.noConfusion h

/-- C4: two candidates with the same normalized title (lowercase, punctuation
removed, whitespace collapsed) and the same date string get the same
fingerprint, for every choice of hash function and regardless of their
location arguments; moreover the normalization is insensitive to casing, so
titles differing only in case always produce equal fingerprints. -/
theorem C4_fingerprint_eq (md5 : Str → Str) (t1 t2 : Str) (d : Option Str)
    (l1 l2 : Option Str) (h : fpNorm t1 = fpNorm t2) :
    fingerprint md5 t1 d l1 = fingerprint md5 t2 d l2 ∧
      ∀ t : Str, fpNorm (lower t) = fpNorm t := by
  constructor
  · unfold fingerprint
    rw [h]
  · intro t
    unfold fpNorm lower
    rw [List.map_map]
    have : lowChar ∘ lowChar = fun c => lowChar c := by
      funext c
      exact lowChar_idem c
    rw [this]

/-- C4, witness: the theorem applied to two concrete titles differing in
casing, punctuation and spacing, with different locations. -/
theorem C4_witness :
    fingerprint (fun s => s) (strOf "Party Time!") (some (strOf "2025-12-31"))
        (some (strOf "Zen Beach")) =
      fingerprint (fun s => s) (strOf "party   time") (some (strOf "2025-12-31")) none :=
  (C4_fingerprint_eq (fun s => s) (strOf "Party Time!") (strOf "party   time")
    (some (strOf "2025-12-31")) (some (strOf "Zen Beach")) none (by decide)).1

/-- C7: starting from the empty EventDedup state, the same candidate is not a
duplicate on the first call (which registers it) and is a duplicate on the
second call. -/
theorem C7_is_duplicate_twice (ev : DedupEvent) :
    (is_duplicate ⟨∅, []⟩ ev).1 = false ∧
    (is_duplicate (is_duplicate ⟨∅, []⟩ ev).2 ev).1 = true := by
  have h1 : is_duplicate ⟨∅, []⟩ ev =
      (false, ⟨{exact_key ev}, [(ev.title, ev.date.getD [], dedupTokenize ev.title)]⟩) := by
    unfold is_duplicate
    rw [if_neg (Finset.not_mem_empty _)]
    rfl
  rw [h1]
  refine ⟨rfl, ?_⟩
  unfold is_duplicate
  rw [if_pos (Finset.mem_singleton_self _)]

/-- C10: is_duplicate mutates its two layers asymmetrically: whenever the
exact key is not already present it is inserted before the fuzzy scan runs,
so the key is registered even when the call answers true through the fuzzy
layer; and the fuzzy history is appended to exactly when the call answers
false. -/
theorem C10_is_duplicate_frame (st : DedupState) (ev : DedupEvent) :
    (exact_key ev ∉ st.exact → exact_key ev ∈ (is_duplicate st ev).2.exact)
    ∧ (is_duplicate st ev).2.events =
        (if (is_duplicate st ev).1 then st.events
         else st.events ++ [(ev.title, ev.date.getD [], dedupTokenize ev.title)]) := by
  unfold is_duplicate
  by_cases hk : exact_key ev ∈ st.exact
  · rw [if_pos hk]
    exact ⟨fun h => absurd hk h, rfl⟩
  · rw [if_neg hk]
    by_cases hf : st.events.any (fun stored =>
        dates_compatible (ev.date.getD []) stored.2.1 &&
          jaccardGe (dedupTokenize ev.title) stored.2.2) = true
    · simp only [hf, if_true]
      exact ⟨fun _ => Finset.mem_insert_self _ _, trivial⟩
    · simp only [hf, Bool.false_eq_true, if_false]
      exact ⟨fun _ => Finset.mem_insert_self _ _, trivial⟩

/-- Concrete state for the C10 witness: one stored event whose stems match
the candidate. -/
def c10State : DedupState :=
  ⟨∅, [(strOf "Beach Party, Tonight!!", [],
        dedupTokenize (strOf "Beach Party, Tonight!!"))]⟩

def c10Event : DedupEvent :=
  ⟨strOf "Beach Party Tonight", none, strOf "Zen Beach"⟩

/-- C10, witness: on a state whose fuzzy history matches the candidate, the
call answers true through layer 2 yet the exact key is still registered and
the history is untouched. -/
theorem C10_witness :
    exact_key c10Event ∈ (is_duplicate c10State c10Event).2.exact ∧
      (is_duplicate c10State c10Event).2.events = c10State.events := by
  constructor
  · exact (C10_is_duplicate_frame c10State c10Event).1 (by decide)
  · exact ((C10_is_duplicate_frame c10State c10Event).2).trans (by decide)

/-- C6, counterexample: the claim as stated fails for the venue name "TBD":
even with a positive record cached under its normalized key "tbd", enrich
returns None (the placeholder guard runs before the cache lookup), not the
cached record the claim requires. -/
theorem C6_guard_precedes_cache :
    (enrich c6Mem (fun _ => none) (fun _ => .fail) none (strOf "TBD")).result = none
    ∧ (aget c6Mem (fun _ => none) (strOf "TBD")).1 =
        some [(kFound, .jbool true), (kLat, .jnum 9)]
    ∧ pyTruthy (getFieldD [(kFound, .jbool true), (kLat, .jnum 9)] kFound (.jbool true))
        = true :=
  ⟨rfl, rfl, rfl⟩

/-- C6, amended: for every venue name that passes the placeholder guard (not
empty, "TBD" or "N/A") and whose lookup hits the cache (memory or durable
tier, positive or negative), enrich returns with zero AI calls: the cached
record when its found flag is truthy or absent, and None for a negative
entry. -/
theorem C6_enrich_cache_hit (mem : VenueMem) (pg : Str → Option VenueRec)
    (script : Nat → GemOutcome) (mapsResult : Option VenueRec) (venue_name : Str)
    (e : VenueRec)
    (hguard : (venue_name.isEmpty || venue_name == strOf "TBD"
      || venue_name == strOf "N/A") = false)
    (hhit : (aget mem pg venue_name).1 = some e) :
    enrich mem pg script mapsResult venue_name =
      ⟨if pyTruthy (getFieldD e kFound (.jbool true)) then some e else none,
        (aget mem pg venue_name).2, 0⟩ := by
  unfold enrich
  rw [hguard]
  simp only [Bool.false_eq_true, if_false]
  cases hA : aget mem pg venue_name with
  | mk r m2 =>
    rw [hA] at hhit
    simp only at hhit
    subst hhit
    rfl

/-- C6, witness: the amended theorem applied to a concrete cache holding a
negative entry for "zen beach": the second lookup returns None with zero AI
calls. -/
theorem C6_witness :
    enrich c6NegMem (fun _ => none) (fun _ => .fail) none (strOf "Zen Beach") =
      ⟨none, c6NegMem, 0⟩ :=
  (C6_enrich_cache_hit c6NegMem (fun _ => none) (fun _ => .fail) none
    (strOf "Zen Beach") [(kFound, .jbool false)] rfl rfl).trans (by rfl)

/-- C8: for every non-blacklisted text whose URL-stripped, stripped length
reaches the 80-character minimum, check computes score = min(whitelist
matches, 3) + 2 for a date/time pattern + 1 for a location marker + 1 for
attached media, and passes exactly when the score reaches the threshold 2;
and the concrete text with a whitelist term, the time pattern "в 19:00" and
media scores at least 4 and passes. -/
theorem C8_prefilter_score :
    (∀ (text : Str) (has_media : Bool),
      blacklistHit text = false →
      MIN_TEXT_LENGTH ≤ (pyStrip (stripUrls text)).length →
      check text has_media =
        ⟨decide (SCORE_THRESHOLD ≤ spec_prefilter_score text has_media),
          spec_prefilter_score text has_media, strOf "scored"⟩)
    ∧ 4 ≤ (check c8Text true).score ∧ (check c8Text true).passed = true := by
  refine ⟨?_, by decide, by decide⟩
  intro text has_media hbl hlen
  have hne : text.isEmpty = false := by
    cases htext : text with
    | nil =>
      rw [htext] at hlen
      exact absurd hlen (by decide)
    | cons c rest => rfl
  unfold check
  rw [hne, hbl]
  simp only [Bool.false_eq_true, if_false]
  rw [if_neg (by simp only [decide_eq_true_eq]; omega)]
  have hsc : (if wlCount text != 0 then ((min (wlCount text) 3 : Nat) : Int) else 0)
      = ((min (wlCount text) 3 : Nat) : Int) := by
    by_cases h : wlCount text = 0
    · simp [h]
    · simp [h]
  unfold spec_prefilter_score
  rw [hsc]

/-- C9: a non-empty text matching the blacklist alternation is rejected with
the sentinel score -1 regardless of its other signals or media: the
blacklist check precedes every other check in check. -/
theorem C9_blacklist_precedence (text : Str) (has_media : Bool) (hne : text ≠ [])
    (hbl : blacklistHit text = true) :
    check text has_media = ⟨false, -1, strOf "blacklist"⟩ := by
  unfold check
  rw [show text.isEmpty = false by simpa using hne, hbl]
  rfl

/-- C8, witness: the score formula applied to the concrete Russian
announcement with media attached. -/
theorem C8_witness :
    check c8Text true =
      ⟨decide (SCORE_THRESHOLD ≤ spec_prefilter_score c8Text true),
        spec_prefilter_score c8Text true, strOf "scored"⟩ :=
  C8_prefilter_score.1 c8Text true (by decide) (by decide)

/-- C9, witness: the theorem applied to the classified ad "Продам байк
Nmax 2023, 45000 бат" with media attached. -/
theorem C9_witness :
    check c9Text true = ⟨false, -1, strOf "blacklist"⟩ :=
  C9_blacklist_precedence c9Text true (by decide) (by decide)
